import Mathlib

/-!
# Verification of the `medical-scan` DICOM viewer repository

Shallow embedding of the repository's own logic:

* `src/app/api/dicom-files/route.ts` (the `GET` endpoint): directory scan,
  per-file DICOM tag extraction, grouping into series, file sorting by
  instance number, and series sorting (modelled by `apiGET` / `listSeries`).
* `src/components/DicomViewer.tsx`: the navigation state machine
  (`nextImage`, `prevImage`, `goToImage`, keyboard handlers, auto-play tick).
* `src/components/DicomThumbnail.tsx`: the grayscale window/level mapping and
  the color-channel copy loop, and the error fallback (placeholder).

Modelling conventions:

* JavaScript numbers are modelled as `ℚ` where real-valued arithmetic matters
  (the window/level math) and as `Nat`/`Int` where the code only ever holds
  integers (indices, counts, instance numbers, series numbers).
* `Array.prototype.sort(cmp)` is modelled by `jsSort`: a stable insertion sort
  that scans the sorted prefix from the right, exactly the algorithm V8 runs
  for short arrays; ECMAScript only pins the result down for consistent
  comparators, and for consistent comparators every stable sort agrees.
* `String.prototype.localeCompare` is modelled as three-way code-unit
  comparison (`strCmp`), and JS string `<` likewise.
* `x || d` on JS strings is `jsOrStr` (empty string and `undefined` are both
  falsy); `x || d` on JS numbers is `jsOrInt`/`jsOrQ` (`0` is falsy).
* The file system and the DICOM parser are oracles passed in as arguments:
  a directory state and a function `String → Option TagData`, where `none`
  models `dicomParser.parseDicom` throwing.
-/

namespace MedScan

/-- Lexicographic comparison of character lists by code point; models
ECMAScript string `<` (code-unit comparison; all repository strings are
BMP, where code units and code points agree). -/
def charListLt : List Char → List Char → Bool
  | [], [] => false
  | [], _ :: _ => true
  | _ :: _, [] => false
  | a :: as, b :: bs =>
    if a.val < b.val then true
    else if b.val < a.val then false
    else charListLt as bs

/-- Three-way string comparison: models both the comparison used by the
comparator-less `files.sort()` and `a.localeCompare(b)` (collation is
modelled as code-unit order). -/
def strCmp (a b : String) : Int :=
  if charListLt a.data b.data then -1
  else if charListLt b.data a.data then 1
  else 0

/-- One step of V8's insertion sort, on the *reversed* sorted prefix: the
pivot `x` moves left past exactly those elements `y` with `c x y < 0`. -/
def jsInsertRev (c : α → α → Int) (x : α) : List α → List α
  | [] => [x]
  | y :: ys => if c x y < 0 then y :: jsInsertRev c x ys else x :: y :: ys

/-- Model of `Array.prototype.sort(c)`: stable insertion sort scanning the
sorted prefix from the right (the algorithm V8 runs for short arrays). -/
def jsSort (c : α → α → Int) (l : List α) : List α :=
  (l.foldl (fun acc x => jsInsertRev c x acc) []).reverse

/-- JS `s || d` for an optional string: `undefined` and `""` are falsy. -/
def jsOrStr (o : Option String) (d : String) : String :=
  match o with
  | none => d
  | some s => if s = "" then d else s

/-- JS `n || d` for an optional number holding an integer: `undefined` and
`0` are falsy. -/
def jsOrInt (o : Option Int) (d : Int) : Int :=
  match o with
  | none => d
  | some n => if n = 0 then d else n

/-! ## DicomViewer navigation (src/components/DicomViewer.tsx) -/

/-- `nextImage` (lines 473-478): `Math.min(prev + 1, imageCount - 1)`,
`0` when the series is empty. -/
def nextImage (imageCount prev : Nat) : Nat :=
  if imageCount = 0 then 0 else min (prev + 1) (imageCount - 1)

/-- `prevImage` (lines 480-482): `prev > 0 ? prev - 1 : 0`. -/
def prevImage (prev : Nat) : Nat :=
  if 0 < prev then prev - 1 else 0

/-- `goToImage` (lines 484-494): no-op on an empty series, otherwise
`Math.max(0, Math.min(index, imageCount - 1))`; the argument is an
arbitrary integer. -/
def goToImage (imageCount current : Nat) (index : Int) : Nat :=
  if imageCount = 0 then current
  else (max 0 (min index ((imageCount : Int) - 1))).toNat

/-- The auto-play tick's index update (lines 521-524):
`next = prev + 1; next >= imageCount ? 0 : next`. -/
def tickAdvance (imageCount prev : Nat) : Nat :=
  if prev + 1 ≥ imageCount then 0 else prev + 1

/-- The Space-key jump size (line 458): `Math.max(1, Math.floor(total / 50))`. -/
def keyJumpSize (total : Nat) : Nat := max 1 (total / 50)

/-- The navigation operations that can update `currentImageIndex`
(buttons, keyboard handler of lines 424-465, auto-play tick). -/
inductive NavOp where
  | next
  | prev
  | goTo (index : Int)
  | keyLeft
  | keyRight
  | keyHome
  | keyEnd
  | keySpace
  | tick

/-- One navigation step. The keyboard handler returns early when
`imageCount = 0` (lines 429-432), leaving the index unchanged. -/
def navStep (imageCount idx : Nat) : NavOp → Nat
  | .next => nextImage imageCount idx
  | .prev => prevImage idx
  | .goTo i => goToImage imageCount idx i
  | .keyLeft => if imageCount = 0 then idx else prevImage idx
  | .keyRight => if imageCount = 0 then idx else min (idx + 1) (imageCount - 1)
  | .keyHome => if imageCount = 0 then idx else 0
  | .keyEnd => if imageCount = 0 then idx else imageCount - 1
  | .keySpace =>
    if imageCount = 0 then idx else min (imageCount - 1) (idx + keyJumpSize imageCount)
  | .tick => tickAdvance imageCount idx

/-- Run a sequence of navigation operations from a starting index. -/
def navRun (imageCount : Nat) (ops : List NavOp) (start : Nat) : Nat :=
  ops.foldl (navStep imageCount) start

/-! ## The GET /api/dicom-files endpoint (src/app/api/dicom-files/route.ts) -/

/-- JS `s.split('.')` on character lists: `[] ↦ [[]]`, separators delimit
(possibly empty) fields. -/
def splitOnChar (sep : Char) : List Char → List (List Char)
  | [] => [[]]
  | c :: cs =>
    let r := splitOnChar sep cs
    if c = sep then [] :: r
    else
      match r with
      | [] => [[c]]
      | h :: t => (c :: h) :: t

/-- JS `file.split('.')`. -/
def jsSplitDot (s : String) : List String :=
  (splitOnChar '.' s.data).map String.mk

/-- JS `String.prototype.toLowerCase` (ASCII case mapping suffices for
the `.dcm`/`.dicom` extension test). -/
def jsToLower (s : String) : String :=
  String.mk (s.data.map Char.toLower)

/-- JS `String.prototype.endsWith`. -/
def jsEndsWith (s suffix : String) : Bool :=
  suffix.data.isSuffixOf s.data

/-- The directory filter (line 175 of the route): keep files whose
lower-cased name ends in `.dcm` or `.dicom`. -/
def dicomFilter (file : String) : Bool :=
  jsEndsWith (jsToLower file) ".dcm" || jsEndsWith (jsToLower file) ".dicom"

/-- The longest all-digit suffix of a character list. -/
def trailingDigits (l : List Char) : List Char :=
  (l.reverse.takeWhile (fun c => c.isDigit)).reverse

/-- Decimal value of a digit string (`parseInt` on a `\d+` capture). -/
def digitsToNat (l : List Char) : Nat :=
  l.foldl (fun acc c => acc * 10 + (c.toNat - 48)) 0

/-- `extractInstanceNumber` (route lines 305-309): match the regex
`\.(\d+)\.dcm$` against the path and parse the captured digits; the
(leftmost, end-anchored) capture is the maximal trailing digit run that
is preceded by a literal `.` and followed by the final `.dcm`. -/
def extractInstanceNumber (filename : String) : Option Nat :=
  let cs := filename.data
  if (".dcm".data).isSuffixOf cs then
    let stem := cs.take (cs.length - 4)
    let ds := trailingDigits stem
    if ds = [] then none
    else if (stem.take (stem.length - ds.length)).getLast? = some '.' then
      some (digitsToNat ds)
    else none
  else none

/-- The file comparator of route lines 250-258: numeric when both paths
yield an instance number, `localeCompare` otherwise. -/
def cmpFiles (a b : String) : Int :=
  match extractInstanceNumber a, extractInstanceNumber b with
  | some x, some y => (x : Int) - (y : Int)
  | some _, none => strCmp a b
  | none, some _ => strCmp a b
  | none, none => strCmp a b

/-- The DICOM tags the route reads from a successfully parsed file;
`none` models `dataSet.string`/`dataSet.intString` returning `undefined`. -/
structure TagData where
  studyInstanceUID : Option String := none
  seriesInstanceUID : Option String := none
  seriesDescription : Option String := none
  seriesNumber : Option Int := none
  modality : Option String := none
  patientName : Option String := none
  studyDescription : Option String := none
  deriving Inhabited

/-- The `metadata` record stored per series group (route lines 179-190).
`seriesDescription` and `seriesNumber` are set by both the parsed and the
fallback branch; the rest only by the parsed branch. -/
structure GroupMeta where
  studyInstanceUID : Option String := none
  seriesInstanceUID : Option String := none
  seriesDescription : String := ""
  seriesNumber : Int := 0
  modality : Option String := none
  patientName : Option String := none
  studyDescription : Option String := none
  deriving Inhabited

/-- The `seriesGroups` object: an insertion-ordered map from series key to
(files, metadata). -/
abbrev GroupTable := List (String × (List String × GroupMeta))

/-- Whether `seriesGroups` has key `k` as an *own* property — what
`seriesGroups[k].files.push` needs in order not to throw. -/
def tableHas (t : GroupTable) (k : String) : Bool :=
  t.any (fun e => e.1 = k)

/-- `seriesGroups[key].files.push(path)` on an existing own group. -/
def tablePush (t : GroupTable) (k : String) (path : String) : GroupTable :=
  t.map (fun e => if e.1 = k then (e.1, (e.2.1 ++ [path], e.2.2)) else e)

/-- The own property names of `Object.prototype` (Node's default): for any
of these keys `k`, the lookup `({})[k]` finds an inherited function (or,
for `__proto__`, `Object.prototype` itself) and is therefore truthy. -/
def objectProtoKeys : List String :=
  ["constructor", "toString", "toLocaleString", "valueOf", "hasOwnProperty",
    "isPrototypeOf", "propertyIsEnumerable", "__defineGetter__",
    "__defineSetter__", "__lookupGetter__", "__lookupSetter__", "__proto__"]

/-- Truthiness of the JS lookup `seriesGroups[k]`, which walks the
prototype chain: an own entry (a group object, always truthy) or a member
inherited from `Object.prototype`. -/
def lookupTruthy (t : GroupTable) (k : String) : Bool :=
  tableHas t k || objectProtoKeys.contains k

/-- The guarded group update of route lines 209-224 / 230-239:
`if (!seriesGroups[k]) { seriesGroups[k] = { files: [], metadata } }`
followed by `seriesGroups[k].files.push(path)`. Because the guard walks
the prototype chain, a key naming an `Object.prototype` member is seen as
truthy, the group is never created, and the push throws a TypeError —
modelled by `Except.error`. -/
def tryPush (t : GroupTable) (k : String) (m : GroupMeta) (path : String) :
    Except Unit GroupTable :=
  let t1 := if lookupTruthy t k then t else t ++ [(k, ([], m))]
  if tableHas t1 k then .ok (tablePush t1 k path) else .error ()

/-- The key the parsed branch groups under (route line 200/207). -/
def parsedKey (tags : TagData) : String :=
  jsOrStr tags.seriesInstanceUID "unknown-series"

/-- The metadata stored by the parsed branch (route lines 199-221). -/
def parsedMeta (tags : TagData) : GroupMeta :=
  { studyInstanceUID := some (jsOrStr tags.studyInstanceUID "unknown-study")
    seriesInstanceUID := some (parsedKey tags)
    seriesDescription := jsOrStr tags.seriesDescription ""
    seriesNumber := jsOrInt tags.seriesNumber 0
    modality := some (jsOrStr tags.modality "")
    patientName := some (jsOrStr tags.patientName "")
    studyDescription := some (jsOrStr tags.studyDescription "") }

/-- The filename-derived fallback key of route lines 228-229. -/
def fallbackKeyOf (file : String) : String :=
  let parts := jsSplitDot file
  if parts.length ≥ 8 then parts.getD 7 "" else "unknown"

/-- The fallback grouping of the per-file catch (route lines 227-239).
A TypeError thrown by this push happens *inside* the catch handler and
escapes to the route's outer catch. -/
def fallbackPush (t : GroupTable) (file : String) : Except Unit GroupTable :=
  tryPush t (fallbackKeyOf file)
    { seriesDescription := "Series " ++ fallbackKeyOf file
      seriesNumber := 0 }
    ("/dicom/" ++ file)

/-- The loop body of route lines 192-241: a successful parse groups the
file under its (defaulted) Series Instance UID; if that push throws (the
UID names an `Object.prototype` member) the per-file catch reroutes the
file to the filename-derived fallback key, exactly as it does on a parse
failure; an error from the fallback push itself escapes the loop. -/
def processFile (parse : String → Option TagData) (t : GroupTable) (file : String) :
    Except Unit GroupTable :=
  match parse file with
  | some tags =>
    match tryPush t (parsedKey tags) (parsedMeta tags) ("/dicom/" ++ file) with
    | .ok t1 => .ok t1
    | .error _ => fallbackPush t file
  | none => fallbackPush t file

/-- The whole `for (const file of files)` loop, propagating an escaped
TypeError to the route's outer catch. -/
def processAll (parse : String → Option TagData) :
    GroupTable → List String → Except Unit GroupTable
  | t, [] => .ok t
  | t, f :: fs =>
    match processFile parse t f with
    | .ok t1 => processAll parse t1 fs
    | .error e => .error e

/-- The response objects of the `series` array (the `DicomSeries`
interface of the route). -/
structure DicomSeries where
  id : String
  name : String
  description : String
  files : List String
  thumbnail : Option String
  studyInstanceUID : Option String
  seriesInstanceUID : Option String
  seriesNumber : Int
  instanceCount : Nat
  deriving DecidableEq, Inhabited

/-- Route lines 246-282: build one response series from a group — sort the
files with `cmpFiles`, derive the display name, record `instanceCount`. -/
def buildSeries (e : String × (List String × GroupMeta)) : DicomSeries :=
  let key := e.1
  let files := e.2.1
  let meta := e.2.2
  let sortedFiles := jsSort cmpFiles files
  let base :=
    if meta.seriesDescription ≠ "" then meta.seriesDescription
    else "Series " ++ (if meta.seriesNumber = 0 then "Unknown" else toString meta.seriesNumber)
  let withModality :=
    match meta.modality with
    | some m => if m ≠ "" then m ++ " - " ++ base else base
    | none => base
  let name :=
    if meta.seriesDescription = "" ∧ files.length ≤ 5 then "Scout Images" else withModality
  { id := key
    name := name.trim
    description := toString files.length ++ " images"
    files := sortedFiles
    thumbnail := sortedFiles.head?
    studyInstanceUID := meta.studyInstanceUID
    seriesInstanceUID := meta.seriesInstanceUID
    seriesNumber := meta.seriesNumber
    instanceCount := files.length }

/-- The series comparator of route lines 285-296: by series number first,
then scouts (≤ 5 instances) before larger series, then by instance count. -/
def cmpSeries (a b : DicomSeries) : Int :=
  if a.seriesNumber ≠ b.seriesNumber then a.seriesNumber - b.seriesNumber
  else if a.instanceCount ≤ 5 ∧ b.instanceCount > 5 then -1
  else if a.instanceCount > 5 ∧ b.instanceCount ≤ 5 then 1
  else (a.instanceCount : Int) - (b.instanceCount : Int)

/-- The route's try block after the existence check: filter the directory
listing, sort it (default string sort), group file by file, build the
series objects and sort them; a TypeError escaping the grouping loop makes
the whole computation fail. -/
def listSeries (parse : String → Option TagData) (dirFiles : List String) :
    Except Unit (List DicomSeries) :=
  match processAll parse [] (jsSort strCmp (dirFiles.filter dicomFilter)) with
  | .ok table => .ok (jsSort cmpSeries (table.map buildSeries))
  | .error e => .error e

/-- The two JSON responses the route can produce. -/
inductive ApiResponse where
  | ok (series : List DicomSeries)
  | error500
  deriving DecidableEq

/-- The directory oracle: `Except.error` models `fs` throwing,
`Except.ok none` a missing `public/dicom` directory, and
`Except.ok (some files)` its listing. -/
abbrev DirState := Except Unit (Option (List String))

/-- The whole `GET` handler (route lines 166-303): a missing directory
yields `{ series: [] }`; a file-system error, or a TypeError escaping the
grouping loop, reaches the outer catch and yields the 500 response;
otherwise the grouped series list is served. -/
def apiGET (dir : DirState) (parse : String → Option TagData) : ApiResponse :=
  match dir with
  | .error _ => .error500
  | .ok none => .ok []
  | .ok (some dirFiles) =>
    match listSeries parse dirFiles with
    | .ok series => .ok series
    | .error _ => .error500

/-! ## DicomThumbnail rendering (src/components/DicomThumbnail.tsx) -/

/-- JS `Number(x) || d` for the thumbnail's window parameters
(lines 137-140): `undefined` and `0` are falsy. JS numbers are modelled
as rationals. -/
def jsOrQ (o : Option ℚ) (d : ℚ) : ℚ :=
  match o with
  | none => d
  | some v => if v = 0 then d else v

/-- The grayscale window/level mapping of DicomThumbnail lines 142-156:
rescale with slope/intercept, then clamp-and-scale into `[0, 255]` against
the window `[wc - ww/2, wc + ww/2]`. -/
def grayIntensity (windowCenter windowWidth slope intercept p : ℚ) : ℚ :=
  let pixelValue := p * slope + intercept
  let minValue := windowCenter - windowWidth / 2
  let maxValue := windowCenter + windowWidth / 2
  if pixelValue ≤ minValue then 0
  else if pixelValue ≥ maxValue then 255
  else (pixelValue - minValue) / windowWidth * 255

/-- The color branch of DicomThumbnail lines 126-134: RGB triples from the
toolkit's decoded pixel data are copied unchanged into RGBA with alpha 255. -/
def colorToRGBA : List ℚ → List ℚ
  | r :: g :: b :: rest => r :: g :: b :: 255 :: colorToRGBA rest
  | _ => []

/-- The toolkit image handed to the thumbnail renderer, restricted to the
fields the grayscale path reads; window fields are optional because the
code defaults them (`Number(...) || d`). -/
structure GrayImage where
  windowCenter : Option ℚ := none
  windowWidth : Option ℚ := none
  slope : Option ℚ := none
  intercept : Option ℚ := none
  pixelData : List ℚ := []

/-- What the thumbnail component leaves on its canvas. -/
inductive ThumbOutput where
  | drawn (rgba : List ℚ)
  | placeholder
  deriving DecidableEq

/-- The grayscale pixel loop (lines 136-164) with the defaulted window
parameters of lines 137-140. -/
def grayPixels (img : GrayImage) : List ℚ :=
  let wc := jsOrQ img.windowCenter 128
  let ww := jsOrQ img.windowWidth 256
  let slope := jsOrQ img.slope 1
  let intercept := jsOrQ img.intercept 0
  (img.pixelData.map (fun p => grayIntensity wc ww slope intercept p)).flatMap
    (fun v => [v, v, v, 255])

/-- The thumbnail load/render pipeline with its catch (lines 69-198):
a failing `cornerstone.loadImage` is caught and reduces to the greyed-out
`IMG` placeholder; a successful load is rendered. -/
def renderThumbnail (load : Except Unit GrayImage) : ThumbOutput :=
  match load with
  | .error _ => .placeholder
  | .ok img => .drawn (grayPixels img)

/-! ## Properties of the sort model -/

/-- A comparator is swap-consistent when `c a b ≥ 0` forces `c b a ≤ 0`.
All three comparators of the repository satisfy this, and it is exactly
what makes adjacent elements of the insertion-sorted output respect the
comparator even when the comparator is not transitive. -/
def SwapOk (c : α → α → Int) : Prop := ∀ a b, 0 ≤ c a b → c b a ≤ 0

theorem jsInsertRev_perm (c : α → α → Int) (x : α) :
    ∀ l : List α, List.Perm (jsInsertRev c x l) (x :: l) := by
  intro l
  induction l with
  | nil => simp [jsInsertRev]
  | cons y ys ih =>
    simp only [jsInsertRev]
    split
    · exact (ih.cons y).trans (List.Perm.swap x y ys)
    · exact List.Perm.refl _

theorem jsSort_perm (c : α → α → Int) (l : List α) : List.Perm (jsSort c l) l := by
  have aux : ∀ (l acc : List α),
      List.Perm (l.foldl (fun acc x => jsInsertRev c x acc) acc) (acc ++ l) := by
    intro l
    induction l with
    | nil => intro acc; simp
    | cons x xs ih =>
      intro acc
      refine List.Perm.trans (ih (jsInsertRev c x acc)) ?_
      refine List.Perm.trans ((jsInsertRev_perm c x acc).append_right xs) ?_
      exact List.perm_middle.symm
  refine List.Perm.trans (List.reverse_perm _) ?_
  have h := aux l []
  simpa using h

theorem jsInsertRev_head? (c : α → α → Int) (x : α) (l : List α) :
    (jsInsertRev c x l).head? = some x ∨ (jsInsertRev c x l).head? = l.head? := by
  cases l with
  | nil => left; rfl
  | cons y ys =>
    simp only [jsInsertRev]
    split
    · right; rfl
    · left; rfl

theorem chain'_jsInsertRev (c : α → α → Int) (hc : SwapOk c) (x : α) :
    ∀ l : List α, l.Chain' (fun u v => c v u ≤ 0) →
      (jsInsertRev c x l).Chain' (fun u v => c v u ≤ 0) := by
  intro l
  induction l with
  | nil => intro _; simp [jsInsertRev]
  | cons y ys ih =>
    intro h
    rw [List.chain'_cons'] at h
    obtain ⟨hhead, htail⟩ := h
    simp only [jsInsertRev]
    split
    · -- the pivot moves past `y`
      rename_i hlt
      rw [List.chain'_cons']
      refine ⟨?_, ih htail⟩
      intro z hz
      rcases jsInsertRev_head? c x ys with hh | hh
      · rw [hh] at hz
        simp only [Option.mem_def, Option.some.injEq] at hz
        subst hz
        omega
      · rw [hh] at hz
        exact hhead z hz
    · -- the pivot lands to the right of `y`
      rename_i hge
      rw [List.chain'_cons']
      refine ⟨?_, List.chain'_cons'.mpr ⟨hhead, htail⟩⟩
      intro z hz
      simp only [List.head?_cons, Option.mem_def, Option.some.injEq] at hz
      subst hz
      exact hc x y (by omega)

theorem jsSort_chain' (c : α → α → Int) (hc : SwapOk c) (l : List α) :
    (jsSort c l).Chain' (fun a b => c a b ≤ 0) := by
  have aux : ∀ (l acc : List α), acc.Chain' (fun u v => c v u ≤ 0) →
      (l.foldl (fun acc x => jsInsertRev c x acc) acc).Chain' (fun u v => c v u ≤ 0) := by
    intro l
    induction l with
    | nil => intro acc h; exact h
    | cons x xs ih => intro acc h; exact ih _ (chain'_jsInsertRev c hc x acc h)
  have h := aux l [] (by simp)
  rw [jsSort, List.chain'_reverse]
  exact h

theorem swapOk_strCmp : SwapOk strCmp := by
  intro a b h
  unfold strCmp at h ⊢
  split_ifs at h ⊢ <;> omega

theorem swapOk_cmpFiles : SwapOk cmpFiles := by
  intro a b h
  simp only [cmpFiles] at h ⊢
  cases hA : extractInstanceNumber a <;> cases hB : extractInstanceNumber b <;>
    simp only [hA, hB] at h ⊢
  · exact swapOk_strCmp a b h
  · exact swapOk_strCmp a b h
  · exact swapOk_strCmp a b h
  · omega

theorem swapOk_cmpSeries : SwapOk cmpSeries := by
  intro a b h
  unfold cmpSeries at h ⊢
  split_ifs at h ⊢ <;> omega

/-! ## Properties of the grouping table -/

/-- The keys of `seriesGroups`, in insertion order. -/
def tableKeys (t : GroupTable) : List String := t.map (fun e => e.1)

/-- All file paths stored across the groups of `seriesGroups`. -/
def tableFiles (t : GroupTable) : List String := (t.map (fun e => e.2.1)).flatten

theorem tableFiles_cons (e : String × (List String × GroupMeta)) (t : GroupTable) :
    tableFiles (e :: t) = e.2.1 ++ tableFiles t := by
  simp [tableFiles]

theorem tableKeys_tablePush (t : GroupTable) (k p : String) :
    tableKeys (tablePush t k p) = tableKeys t := by
  induction t with
  | nil => rfl
  | cons e rest ih =>
    simp only [tableKeys, tablePush, List.map_cons] at ih ⊢
    by_cases h : e.1 = k <;> simp [h, ih]

theorem tableHas_false_iff (t : GroupTable) (k : String) :
    tableHas t k = false ↔ k ∉ tableKeys t := by
  induction t with
  | nil => simp [tableHas, tableKeys]
  | cons e rest ih =>
    simp only [tableHas, tableKeys, List.any_cons, List.map_cons, List.mem_cons] at ih ⊢
    constructor
    · intro h
      simp only [Bool.or_eq_false_iff, decide_eq_false_iff_not] at h
      intro hmem
      rcases hmem with hmem | hmem
      · exact h.1 hmem.symm
      · exact (ih.mp h.2) hmem
    · intro h
      have h1 : ¬e.1 = k := fun hh => h (Or.inl hh.symm)
      have h2 : k ∉ rest.map (fun e => e.1) := fun hh => h (Or.inr hh)
      simp [h1, ih.mpr h2]

theorem tablePush_cons (e : String × (List String × GroupMeta)) (t : GroupTable)
    (k p : String) :
    tablePush (e :: t) k p =
      (if e.1 = k then (e.1, (e.2.1 ++ [p], e.2.2)) else e) :: tablePush t k p := rfl

theorem tablePush_of_hasFalse (t : GroupTable) (k p : String)
    (h : tableHas t k = false) : tablePush t k p = t := by
  induction t with
  | nil => rfl
  | cons e rest ih =>
    simp only [tableHas, List.any_cons, Bool.or_eq_false_iff,
      decide_eq_false_iff_not] at h
    rw [tablePush_cons, if_neg h.1, ih h.2]

theorem tableFiles_tablePush (t : GroupTable) (k p : String)
    (hnd : (tableKeys t).Nodup) (hk : tableHas t k = true) :
    List.Perm (tableFiles (tablePush t k p)) (p :: tableFiles t) := by
  induction t with
  | nil => simp [tableHas] at hk
  | cons e rest ih =>
    simp only [tableKeys, List.map_cons, List.nodup_cons] at hnd
    by_cases hek : e.1 = k
    · have hrest : tableHas rest k = false := by
        rw [tableHas_false_iff]
        rw [← hek]
        exact hnd.1
      rw [tablePush_cons, if_pos hek, tablePush_of_hasFalse rest k p hrest]
      rw [tableFiles_cons, tableFiles_cons]
      simp only [List.append_assoc, List.singleton_append]
      exact List.perm_middle
    · have hk' : tableHas rest k = true := by
        simp only [tableHas, List.any_cons] at hk
        rcases Bool.or_eq_true_iff.mp hk with h | h
        · exact absurd (of_decide_eq_true h) hek
        · exact h
      rw [tablePush_cons, if_neg hek]
      rw [tableFiles_cons, tableFiles_cons]
      refine ((ih hnd.2 hk').append_left e.2.1).trans ?_
      exact List.perm_middle

theorem tableHas_append_self (t : GroupTable) (k : String)
    (x : List String × GroupMeta) : tableHas (t ++ [(k, x)]) k = true := by
  simp [tableHas, List.any_append]

theorem tableKeys_append_nodup (t : GroupTable) (k : String)
    (x : List String × GroupMeta) (hnd : (tableKeys t).Nodup)
    (hk : tableHas t k = false) : (tableKeys (t ++ [(k, x)])).Nodup := by
  have hkm : k ∉ tableKeys t := (tableHas_false_iff t k).mp hk
  simp only [tableKeys, List.map_append, List.map_cons, List.map_nil]
  rw [List.nodup_append]
  refine ⟨hnd, by simp, ?_⟩
  intro y hy hy'
  simp only [List.mem_singleton] at hy'
  subst hy'
  exact hkm hy

theorem tableFiles_append_empty (t : GroupTable) (k : String) (m : GroupMeta) :
    tableFiles (t ++ [(k, ([], m))]) = tableFiles t := by
  simp [tableFiles]

/-- Case analysis for the guarded push: an own key is pushed onto, a fresh
non-prototype key is initialized then pushed onto, and a non-own key that
names an `Object.prototype` member throws. -/
theorem tryPush_eq (t : GroupTable) (k : String) (m : GroupMeta) (p : String) :
    tryPush t k m p =
      if tableHas t k then Except.ok (tablePush t k p)
      else if objectProtoKeys.contains k then Except.error ()
      else Except.ok (tablePush (t ++ [(k, ([], m))]) k p) := by
  unfold tryPush lookupTruthy
  cases h1 : tableHas t k <;> cases h2 : objectProtoKeys.contains k <;>
    simp [h1, h2, tableHas_append_self]

theorem tryPush_ok (t : GroupTable) (k : String) (m : GroupMeta) (p : String)
    (t' : GroupTable) (hnd : (tableKeys t).Nodup)
    (h : tryPush t k m p = Except.ok t') :
    (tableKeys t').Nodup ∧ List.Perm (tableFiles t') (p :: tableFiles t) := by
  rw [tryPush_eq] at h
  split at h
  · rename_i h1
    injection h with h3
    subst h3
    refine ⟨?_, tableFiles_tablePush t k p hnd h1⟩
    rw [tableKeys_tablePush]
    exact hnd
  · rename_i h1
    split at h
    · exact Except.noConfusion h
    · injection h with h3
      subst h3
      have hk : tableHas t k = false := by
        cases hcc : tableHas t k
        · rfl
        · exact absurd hcc h1
      have hnd2 : (tableKeys (t ++ [(k, ([], m))])).Nodup :=
        tableKeys_append_nodup t k ([], m) hnd hk
      have hperm := tableFiles_tablePush (t ++ [(k, ([], m))]) k p hnd2
        (tableHas_append_self t k ([], m))
      rw [tableFiles_append_empty] at hperm
      refine ⟨?_, hperm⟩
      rw [tableKeys_tablePush]
      exact hnd2

theorem processFile_ok (parse : String → Option TagData) (t : GroupTable)
    (f : String) (t' : GroupTable) (hnd : (tableKeys t).Nodup)
    (h : processFile parse t f = Except.ok t') :
    (tableKeys t').Nodup ∧
      List.Perm (tableFiles t') (("/dicom/" ++ f) :: tableFiles t) := by
  cases hp : parse f with
  | none =>
    simp only [processFile, hp] at h
    unfold fallbackPush at h
    exact tryPush_ok _ _ _ _ _ hnd h
  | some tags =>
    simp only [processFile, hp] at h
    cases htp : tryPush t (parsedKey tags) (parsedMeta tags) ("/dicom/" ++ f) with
    | ok t1 =>
      simp only [htp] at h
      injection h with h3
      subst h3
      exact tryPush_ok _ _ _ _ _ hnd htp
    | error e =>
      simp only [htp] at h
      unfold fallbackPush at h
      exact tryPush_ok _ _ _ _ _ hnd h

theorem processAll_ok (parse : String → Option TagData) (files : List String) :
    ∀ t T : GroupTable, (tableKeys t).Nodup →
      processAll parse t files = Except.ok T →
      (tableKeys T).Nodup ∧
        List.Perm (tableFiles T)
          (tableFiles t ++ files.map (fun f => "/dicom/" ++ f)) := by
  induction files with
  | nil =>
    intro t T hnd h
    injection h with h3
    subst h3
    exact ⟨hnd, by simp⟩
  | cons f fs ih =>
    intro t T hnd h
    unfold processAll at h
    cases hpf : processFile parse t f with
    | error e =>
      rw [hpf] at h
      exact Except.noConfusion h
    | ok t1 =>
      rw [hpf] at h
      have h1 := processFile_ok parse t f t1 hnd hpf
      have h2 := ih t1 T h1.1 h
      refine ⟨h2.1, ?_⟩
      refine h2.2.trans ?_
      refine (h1.2.append_right _).trans ?_
      simp only [List.cons_append, List.map_cons]
      exact List.perm_middle.symm

theorem countP_mem_zero (x : String) :
    ∀ t : GroupTable, List.count x (tableFiles t) = 0 →
      t.countP (fun e => decide (x ∈ e.2.1)) = 0 := by
  intro t
  induction t with
  | nil => intro _; rfl
  | cons e rest ih =>
    intro h
    rw [tableFiles_cons, List.count_append] at h
    have h1 : List.count x e.2.1 = 0 := by omega
    have h2 : List.count x (tableFiles rest) = 0 := by omega
    rw [List.countP_cons, ih h2]
    simp [List.count_eq_zero.mp h1]

theorem countP_mem_one (x : String) :
    ∀ t : GroupTable, List.count x (tableFiles t) = 1 →
      t.countP (fun e => decide (x ∈ e.2.1)) = 1 := by
  intro t
  induction t with
  | nil => intro h; simp [tableFiles] at h
  | cons e rest ih =>
    intro h
    rw [tableFiles_cons, List.count_append] at h
    rw [List.countP_cons]
    by_cases hx : x ∈ e.2.1
    · have hpos : 0 < List.count x e.2.1 := List.count_pos_iff.mpr hx
      have h2 : List.count x (tableFiles rest) = 0 := by omega
      rw [countP_mem_zero x rest h2]
      simp [hx]
    · have h1 : List.count x e.2.1 = 0 := List.count_eq_zero.mpr hx
      have h2 : List.count x (tableFiles rest) = 1 := by omega
      rw [ih h2]
      simp [hx]

theorem mem_tableFiles_iff (x : String) (t : GroupTable) :
    x ∈ tableFiles t ↔ ∃ e ∈ t, x ∈ e.2.1 := by
  induction t with
  | nil => simp [tableFiles]
  | cons e rest ih =>
    rw [tableFiles_cons, List.mem_append, ih]
    constructor
    · rintro (h | ⟨e', he', hx⟩)
      · exact ⟨e, List.mem_cons_self e rest, h⟩
      · exact ⟨e', List.mem_cons_of_mem e he', hx⟩
    · rintro ⟨e', he', hx⟩
      rcases List.mem_cons.mp he' with rfl | he'
      · exact Or.inl hx
      · exact Or.inr ⟨e', he', hx⟩

/-! ## Bridging the table to the response -/

theorem buildSeries_files (e : String × (List String × GroupMeta)) :
    (buildSeries e).files = jsSort cmpFiles e.2.1 := rfl

theorem buildSeries_instanceCount (e : String × (List String × GroupMeta)) :
    (buildSeries e).instanceCount = e.2.1.length := rfl

theorem path_injective : Function.Injective (fun f : String => "/dicom/" ++ f) := by
  intro a b h
  have h2 : ("/dicom/" ++ a).data = ("/dicom/" ++ b).data := congrArg String.data h
  rw [String.data_append, String.data_append] at h2
  have h3 := List.append_cancel_left h2
  cases a
  cases b
  exact congrArg String.mk h3

theorem countP_series_table (T : GroupTable) (x : String) :
    (jsSort cmpSeries (T.map buildSeries)).countP (fun s => decide (x ∈ s.files)) =
      T.countP (fun e => decide (x ∈ e.2.1)) := by
  rw [List.Perm.countP_eq _ (jsSort_perm _ _), List.countP_map]
  apply List.countP_congr
  intro e _
  have hmem : x ∈ (buildSeries e).files ↔ x ∈ e.2.1 := by
    rw [buildSeries_files]
    exact (jsSort_perm cmpFiles e.2.1).mem_iff
  simp [Function.comp, hmem]

theorem listSeries_ok_elim (parse : String → Option TagData)
    (dirFiles : List String) (series : List DicomSeries)
    (h : listSeries parse dirFiles = Except.ok series) :
    ∃ T : GroupTable,
      processAll parse [] (jsSort strCmp (dirFiles.filter dicomFilter)) =
          Except.ok T ∧
        series = jsSort cmpSeries (T.map buildSeries) := by
  unfold listSeries at h
  cases hpa : processAll parse [] (jsSort strCmp (dirFiles.filter dicomFilter)) with
  | ok T =>
    rw [hpa] at h
    injection h with h3
    exact ⟨T, rfl, h3.symm⟩
  | error e =>
    rw [hpa] at h
    exact Except.noConfusion h

/-! ## Claim C1: how the endpoint partitions the DICOM files into series -/

/-- **C1 counterexample.** The partition does not hold for every directory
state: an unparsable file named `a.b.c.d.e.f.g.constructor.dcm` enters the
per-file catch, whose fallback key `parts[7] = "constructor"` names an
`Object.prototype` member — the `!seriesGroups[key]` guard sees the
inherited (truthy) value, the group is never created, the push throws
inside the catch, and the error escapes to the outer catch: the endpoint
answers 500 and this `.dcm` file appears in no series at all. -/
theorem series_partition_counterexample :
    dicomFilter "a.b.c.d.e.f.g.constructor.dcm" = true ∧
      listSeries (fun _ => none) ["a.b.c.d.e.f.g.constructor.dcm"] =
        Except.error () ∧
      apiGET (Except.ok (some ["a.b.c.d.e.f.g.constructor.dcm"]))
        (fun _ => none) = ApiResponse.error500 :=
  ⟨by decide, rfl, rfl⟩

/-- **C1 amended.** Whenever the route does return a success response
(no group key — the defaulted Series Instance UID, or the filename-derived
fallback key a throwing UID push is rerouted to — collides with an
`Object.prototype` member on its push), the response partitions the files:
(i) each file whose name ends case-insensitively in `.dcm` or `.dicom` has
its `/dicom/<file>` path in the files list of exactly one returned series —
parse failures included, via the fallback key; (ii) a file with any other
extension appears in no series; (iii) every returned series'
`instanceCount` equals the length of its `files` list. -/
theorem apiGET_partitions_files (parse : String → Option TagData)
    (dirFiles : List String) (hnd : dirFiles.Nodup)
    (series : List DicomSeries)
    (hok : listSeries parse dirFiles = Except.ok series) :
    (∀ file ∈ dirFiles, dicomFilter file = true →
        series.countP (fun s => decide (("/dicom/" ++ file) ∈ s.files)) = 1) ∧
    (∀ file ∈ dirFiles, dicomFilter file = false →
        ∀ s ∈ series, ("/dicom/" ++ file) ∉ s.files) ∧
    (∀ s ∈ series, s.instanceCount = s.files.length) := by
  have hfilter_nd : (dirFiles.filter dicomFilter).Nodup := hnd.filter _
  have hsorted_nd : (jsSort strCmp (dirFiles.filter dicomFilter)).Nodup :=
    (jsSort_perm strCmp (dirFiles.filter dicomFilter)).symm.nodup hfilter_nd
  set filtered := jsSort strCmp (dirFiles.filter dicomFilter) with hfiltered
  obtain ⟨T, hpa, rfl⟩ := listSeries_ok_elim parse dirFiles series hok
  have hfold := processAll_ok parse filtered [] T (by simp [tableKeys]) hpa
  have hTfiles : List.Perm (tableFiles T)
      (filtered.map (fun f => "/dicom/" ++ f)) := by
    have h := hfold.2
    simpa [tableFiles] using h
  refine ⟨?_, ?_, ?_⟩
  · intro file hmem hfil
    have hmem_f : file ∈ filtered :=
      (jsSort_perm _ _).mem_iff.mpr (List.mem_filter.mpr ⟨hmem, hfil⟩)
    have hmap_nd : (filtered.map (fun f => "/dicom/" ++ f)).Nodup :=
      hsorted_nd.map path_injective
    have hcount1 :
        List.count ("/dicom/" ++ file) (filtered.map fun f => "/dicom/" ++ f) = 1 :=
      List.count_eq_one_of_mem hmap_nd
        (List.mem_map_of_mem (fun f => "/dicom/" ++ f) hmem_f)
    have hcountT : List.count ("/dicom/" ++ file) (tableFiles T) = 1 := by
      rw [hTfiles.count_eq]
      exact hcount1
    rw [countP_series_table]
    exact countP_mem_one _ T hcountT
  · intro file hmem hfil s hs hx
    have hsT : s ∈ T.map buildSeries := (jsSort_perm _ _).mem_iff.mp hs
    obtain ⟨e, heT, hse⟩ := List.mem_map.mp hsT
    rw [← hse, buildSeries_files] at hx
    have hx' : ("/dicom/" ++ file) ∈ e.2.1 := (jsSort_perm _ _).mem_iff.mp hx
    have hmemT : ("/dicom/" ++ file) ∈ tableFiles T :=
      (mem_tableFiles_iff _ _).mpr ⟨e, heT, hx'⟩
    obtain ⟨f', hf', heq⟩ := List.mem_map.mp (hTfiles.mem_iff.mp hmemT)
    have hfe : f' = file := path_injective heq
    subst hfe
    have hmf : f' ∈ dirFiles.filter dicomFilter := (jsSort_perm _ _).mem_iff.mp hf'
    have htrue := (List.mem_filter.mp hmf).2
    rw [hfil] at htrue
    exact Bool.false_ne_true htrue
  · intro s hs
    have hsT : s ∈ T.map buildSeries := (jsSort_perm _ _).mem_iff.mp hs
    obtain ⟨e, _, hse⟩ := List.mem_map.mp hsT
    rw [← hse, buildSeries_instanceCount, buildSeries_files]
    exact ((jsSort_perm cmpFiles e.2.1).length_eq).symm

/-- A concrete parse oracle mapping every file to the same series
(Series Instance UID `"S1"`, series number 3). -/
def constParse : String → Option TagData := fun _ =>
  some { seriesInstanceUID := some "S1", seriesNumber := some 3 }

/-- A concrete directory listing for witnesses and counterexamples. -/
def c2Dir : List String := ["a.2.dcm", "m.dcm", "z.1.dcm"]

/-- The concrete list the route serves for the C1 witness directory
(one parse-failing `.dcm` file grouped under `"unknown"`, one under the
same key, and a `.txt` file excluded). -/
def c1Series : List DicomSeries :=
  match listSeries (fun _ => none) ["a.2.dcm", "b.txt", "m.dcm"] with
  | .ok l => l
  | .error _ => []

/-- Witness for the amended **C1** at a concrete directory with a parse
failure (the oracle that always fails) and a non-DICOM file. -/
theorem apiGET_partitions_files_witness :
    ((["a.2.dcm", "b.txt", "m.dcm"] : List String).Nodup ∧
        listSeries (fun _ => none) ["a.2.dcm", "b.txt", "m.dcm"] =
          Except.ok c1Series) ∧
      ((∀ file ∈ (["a.2.dcm", "b.txt", "m.dcm"] : List String),
          dicomFilter file = true →
          c1Series.countP
            (fun s => decide (("/dicom/" ++ file) ∈ s.files)) = 1) ∧
        (∀ file ∈ (["a.2.dcm", "b.txt", "m.dcm"] : List String),
          dicomFilter file = false →
          ∀ s ∈ c1Series, ("/dicom/" ++ file) ∉ s.files) ∧
        (∀ s ∈ c1Series, s.instanceCount = s.files.length)) :=
  ⟨⟨by decide, rfl⟩,
    apiGET_partitions_files (fun _ => none) _ (by decide) c1Series rfl⟩

/-! ## Claim C2: file order inside a series -/

/-- The pairwise order asserted by C2: pairs that both yield an instance
number are ordered by it, every other pair by `localeCompare`. -/
def instOrderedPair (a b : String) : Bool :=
  match extractInstanceNumber a, extractInstanceNumber b with
  | some x, some y => decide (x ≤ y)
  | some _, none => decide (strCmp a b ≤ 0)
  | none, some _ => decide (strCmp a b ≤ 0)
  | none, none => decide (strCmp a b ≤ 0)

/-- The single series the route serves on `c2Dir` under `constParse`. -/
def c2SeriesList : List DicomSeries :=
  match listSeries constParse c2Dir with
  | .ok l => l
  | .error _ => []

/-- **C2 counterexample.** With three files of one series named
`a.2.dcm`, `m.dcm`, `z.1.dcm`, the route succeeds and returns them in
exactly that order (the comparator is not transitive across the
numberless `m.dcm`, and the sort only compares neighbours), so the file
with instance number 2 precedes the file with instance number 1: the
claimed global pairwise order does not hold. -/
theorem file_order_counterexample :
    listSeries constParse c2Dir = Except.ok c2SeriesList ∧
      ¬ ∀ s ∈ c2SeriesList,
          s.files.Pairwise (fun a b => instOrderedPair a b = true) :=
  ⟨rfl, by decide⟩

/-- **C2 amended.** The order that does hold is the adjacent-pair version:
in every series of a successful response, every two *adjacent* files
satisfy the comparator — both yield instance numbers and the earlier is no
larger, or the pair is ordered by `localeCompare`. -/
theorem file_order_adjacent (parse : String → Option TagData)
    (dirFiles : List String) (series : List DicomSeries)
    (hok : listSeries parse dirFiles = Except.ok series) :
    ∀ s ∈ series, s.files.Chain' (fun a b => instOrderedPair a b = true) := by
  obtain ⟨T, _, rfl⟩ := listSeries_ok_elim parse dirFiles series hok
  intro s hs
  have hsT := (jsSort_perm _ _).mem_iff.mp hs
  obtain ⟨e, _, hse⟩ := List.mem_map.mp hsT
  rw [← hse, buildSeries_files]
  refine (jsSort_chain' cmpFiles swapOk_cmpFiles e.2.1).imp ?_
  intro a b hab
  unfold cmpFiles at hab
  unfold instOrderedPair
  cases hA : extractInstanceNumber a <;> cases hB : extractInstanceNumber b <;>
      simp only [hA, hB] at hab ⊢ <;> rw [decide_eq_true_eq]
  · exact hab
  · exact hab
  · exact hab
  · omega

/-- The single series of that response. -/
def c2Series : DicomSeries := c2SeriesList.get ⟨0, by decide⟩

/-- Witness for the amended C2 at the concrete counterexample directory. -/
theorem file_order_adjacent_witness :
    listSeries constParse c2Dir = Except.ok c2SeriesList ∧
      c2Series ∈ c2SeriesList ∧
      c2Series.files.Chain' (fun a b => instOrderedPair a b = true) :=
  ⟨rfl, List.get_mem _ _ _,
    file_order_adjacent constParse c2Dir c2SeriesList rfl c2Series
      (List.get_mem _ _ _)⟩

/-! ## Claim C7: order of the series list -/

/-- **C7.** In the series list of every successful response, every two
adjacent series satisfy: the earlier has a strictly smaller
`seriesNumber`, or the numbers are equal and either the earlier is a scout
block (≤ 5 instances) while the later is not, or the earlier's
`instanceCount` is no larger. -/
theorem series_order_adjacent (parse : String → Option TagData)
    (dirFiles : List String) (series : List DicomSeries)
    (hok : listSeries parse dirFiles = Except.ok series) :
    series.Chain' (fun a b =>
      a.seriesNumber < b.seriesNumber ∨
        (a.seriesNumber = b.seriesNumber ∧
          ((a.instanceCount ≤ 5 ∧ 5 < b.instanceCount) ∨
            a.instanceCount ≤ b.instanceCount))) := by
  obtain ⟨T, _, rfl⟩ := listSeries_ok_elim parse dirFiles series hok
  refine (jsSort_chain' cmpSeries swapOk_cmpSeries _).imp ?_
  intro a b hab
  unfold cmpSeries at hab
  split_ifs at hab <;> omega

/-- Witness for **C7** at the concrete three-file directory. -/
theorem series_order_adjacent_witness :
    listSeries constParse c2Dir = Except.ok c2SeriesList ∧
      c2SeriesList.Chain' (fun a b =>
        a.seriesNumber < b.seriesNumber ∨
          (a.seriesNumber = b.seriesNumber ∧
            ((a.instanceCount ≤ 5 ∧ 5 < b.instanceCount) ∨
              a.instanceCount ≤ b.instanceCount))) :=
  ⟨rfl, series_order_adjacent constParse c2Dir c2SeriesList rfl⟩

/-! ## Claim C3: the current image index stays in bounds -/

theorem navStep_le (imageCount idx : Nat) (op : NavOp) (h : idx ≤ imageCount - 1) :
    navStep imageCount idx op ≤ imageCount - 1 := by
  cases op <;>
    simp only [navStep, nextImage, prevImage, goToImage, tickAdvance, keyJumpSize,
      min_def, max_def] <;>
    split_ifs <;> omega

/-- **C3.** Starting from the initial index 0, any sequence of navigation
operations (buttons, `goToImage` with an arbitrary integer, keyboard
handlers, auto-play ticks) leaves `currentImageIndex` within bounds: at
most `imageCount - 1` (and 0 ≤ index holds by the `Nat` representation,
matching the `Math.max(0, ...)` clamps), and exactly 0 when
`imageCount = 0`. -/
theorem nav_index_in_bounds (imageCount : Nat) (ops : List NavOp) :
    navRun imageCount ops 0 ≤ imageCount - 1 ∧
      (imageCount = 0 → navRun imageCount ops 0 = 0) := by
  have main : ∀ (ops : List NavOp) (start : Nat), start ≤ imageCount - 1 →
      navRun imageCount ops start ≤ imageCount - 1 := by
    intro ops
    induction ops with
    | nil => intro start h; exact h
    | cons op rest ih =>
      intro start h
      exact ih _ (navStep_le imageCount start op h)
  have h0 : navRun imageCount ops 0 ≤ imageCount - 1 := main ops 0 (by omega)
  exact ⟨h0, fun hc => by omega⟩

/-- Witness for **C3**: a concrete run (including an out-of-range
`goToImage 99` and a wrap-around tick) stays within bounds, and an empty
series pins the index at 0. -/
theorem nav_index_in_bounds_witness :
    navRun 5 [NavOp.goTo 99, NavOp.tick, NavOp.next, NavOp.keySpace] 0 ≤ 5 - 1 ∧
      navRun 0 [NavOp.prev, NavOp.tick, NavOp.goTo (-3)] 0 = 0 :=
  ⟨(nav_index_in_bounds 5 _).1, (nav_index_in_bounds 0 _).2 rfl⟩

/-! ## Claim C6: the auto-play tick advances by one and wraps -/

/-- **C6.** Whenever the playback tick fires with `imageCount > 1` and a
current index `prev < imageCount`, the index update maps `prev` to
`prev + 1` if that is still a valid index and to `0` otherwise. -/
theorem tick_advances_and_wraps (imageCount prev : Nat)
    (h1 : 1 < imageCount) (h2 : prev < imageCount) :
    tickAdvance imageCount prev =
      if prev + 1 < imageCount then prev + 1 else 0 := by
  unfold tickAdvance
  split_ifs <;> omega

/-- Witness for **C6** at the wrap-around frame of a 3-image series. -/
theorem tick_advances_and_wraps_witness :
    (1 < 3 ∧ 2 < 3) ∧ tickAdvance 3 2 = if 2 + 1 < 3 then 2 + 1 else 0 :=
  ⟨⟨by decide, by decide⟩, tick_advances_and_wraps 3 2 (by decide) (by decide)⟩

/-! ## Claim C9: manual single-step navigation never wraps -/

/-- **C9.** Unlike the auto-play tick, `nextImage` at the last frame stays
at the last frame and `prevImage` at frame 0 stays at frame 0. -/
theorem manual_nav_no_wrap (imageCount : Nat) (h : 0 < imageCount) :
    nextImage imageCount (imageCount - 1) = imageCount - 1 ∧ prevImage 0 = 0 := by
  constructor
  · unfold nextImage
    simp only [min_def]
    split_ifs <;> omega
  · rfl

/-- Witness for **C9** on a 4-image series. -/
theorem manual_nav_no_wrap_witness :
    0 < 4 ∧ (nextImage 4 (4 - 1) = 4 - 1 ∧ prevImage 0 = 0) :=
  ⟨by decide, manual_nav_no_wrap 4 (by decide)⟩

/-! ## Claim C8: the thumbnail window/level mapping -/

theorem grayIntensity_bounds (wc ww s i p : ℚ) (hw : 0 < ww) :
    0 ≤ grayIntensity wc ww s i p ∧ grayIntensity wc ww s i p ≤ 255 := by
  simp only [grayIntensity]
  split_ifs with h1 h2
  · norm_num
  · norm_num
  · push_neg at h1 h2
    constructor
    · have hdiv : 0 ≤ (p * s + i - (wc - ww / 2)) / ww :=
        div_nonneg (by linarith) (le_of_lt hw)
      nlinarith
    · have hq : (p * s + i - (wc - ww / 2)) / ww ≤ 1 := by
        rw [div_le_one hw]
        linarith
      nlinarith

theorem grayIntensity_low (wc ww s i p : ℚ) (h : p * s + i ≤ wc - ww / 2) :
    grayIntensity wc ww s i p = 0 := by
  simp only [grayIntensity]
  rw [if_pos h]

theorem grayIntensity_high (wc ww s i p : ℚ) (hw : 0 < ww)
    (h : wc + ww / 2 ≤ p * s + i) :
    grayIntensity wc ww s i p = 255 := by
  simp only [grayIntensity]
  rw [if_neg (by linarith), if_pos h]

theorem grayIntensity_linear (wc ww s i p : ℚ)
    (h1 : wc - ww / 2 < p * s + i) (h2 : p * s + i < wc + ww / 2) :
    grayIntensity wc ww s i p = (p * s + i - (wc - ww / 2)) / ww * 255 := by
  simp only [grayIntensity]
  rw [if_neg (by linarith), if_neg (not_le.mpr h2)]

theorem grayIntensity_mono (wc ww s i : ℚ) (hs : 0 ≤ s) (hw : 0 < ww)
    (p q : ℚ) (hpq : p ≤ q) :
    grayIntensity wc ww s i p ≤ grayIntensity wc ww s i q := by
  have hv : p * s + i ≤ q * s + i := by nlinarith
  by_cases hp1 : p * s + i ≤ wc - ww / 2
  · rw [grayIntensity_low wc ww s i p hp1]
    exact (grayIntensity_bounds wc ww s i q hw).1
  · by_cases hq2 : wc + ww / 2 ≤ q * s + i
    · rw [grayIntensity_high wc ww s i q hw hq2]
      exact (grayIntensity_bounds wc ww s i p hw).2
    · push_neg at hp1 hq2
      have hp2 : p * s + i < wc + ww / 2 := lt_of_le_of_lt hv hq2
      have hq1 : wc - ww / 2 < q * s + i := lt_of_lt_of_le hp1 hv
      rw [grayIntensity_linear wc ww s i p hp1 hp2,
        grayIntensity_linear wc ww s i q hq1 hq2]
      have hdd : (p * s + i - (wc - ww / 2)) / ww ≤ (q * s + i - (wc - ww / 2)) / ww := by
        apply div_le_div_of_nonneg_right ?_ (le_of_lt hw)
        linarith
      nlinarith

/-- **C8.** The thumbnail's grayscale mapping is total, bounded in `[0, 255]`,
clamps to `0` below the window and to `255` above it, is the explicit linear
ramp strictly inside the window, and is nondecreasing in the raw pixel value
whenever `slope ≥ 0` and `windowWidth > 0`. -/
theorem gray_window_properties (wc ww s i p : ℚ) (hs : 0 ≤ s) (hw : 0 < ww) :
    (0 ≤ grayIntensity wc ww s i p ∧ grayIntensity wc ww s i p ≤ 255) ∧
      (p * s + i ≤ wc - ww / 2 → grayIntensity wc ww s i p = 0) ∧
      (wc + ww / 2 ≤ p * s + i → grayIntensity wc ww s i p = 255) ∧
      (wc - ww / 2 < p * s + i → p * s + i < wc + ww / 2 →
        grayIntensity wc ww s i p = (p * s + i - (wc - ww / 2)) / ww * 255) ∧
      (∀ q, p ≤ q → grayIntensity wc ww s i p ≤ grayIntensity wc ww s i q) :=
  ⟨grayIntensity_bounds wc ww s i p hw,
    grayIntensity_low wc ww s i p,
    grayIntensity_high wc ww s i p hw,
    grayIntensity_linear wc ww s i p,
    fun q hq => grayIntensity_mono wc ww s i hs hw p q hq⟩

/-- Witness for **C8** at the code's own default window
(center 128, width 256, slope 1, intercept 0) and pixel value 5. -/
theorem gray_window_properties_witness :
    ((0 : ℚ) ≤ 1 ∧ (0 : ℚ) < 256) ∧
      ((0 ≤ grayIntensity 128 256 1 0 5 ∧ grayIntensity 128 256 1 0 5 ≤ 255) ∧
        ((5 : ℚ) * 1 + 0 ≤ 128 - 256 / 2 → grayIntensity 128 256 1 0 5 = 0) ∧
        ((128 : ℚ) + 256 / 2 ≤ 5 * 1 + 0 → grayIntensity 128 256 1 0 5 = 255) ∧
        ((128 : ℚ) - 256 / 2 < 5 * 1 + 0 → (5 : ℚ) * 1 + 0 < 128 + 256 / 2 →
          grayIntensity 128 256 1 0 5 =
            ((5 : ℚ) * 1 + 0 - (128 - 256 / 2)) / 256 * 255) ∧
        (∀ q, (5 : ℚ) ≤ q →
          grayIntensity 128 256 1 0 5 ≤ grayIntensity 128 256 1 0 q)) :=
  ⟨⟨by norm_num, by norm_num⟩,
    gray_window_properties 128 256 1 0 5 (by norm_num) (by norm_num)⟩

/-! ## Claim C4: where the windowing math actually lives -/

/-- **C4 counterexample.** The thumbnail renderer's own grayscale loop does
compute a window/level transformation in repository source: at the code's
default window, the toolkit-decoded value 1000 is written as 255, not
unchanged. -/
theorem repo_windowing_counterexample :
    grayIntensity 128 256 1 0 1000 = 255 ∧ (255 : ℚ) ≠ 1000 := by
  constructor
  · simp only [grayIntensity]
    norm_num
  · norm_num

theorem colorToRGBA_drop (k : Nat) :
    ∀ px : List ℚ, (colorToRGBA px).drop (4 * k) = colorToRGBA (px.drop (3 * k)) := by
  induction k with
  | zero => intro px; simp
  | succ n ih =>
    intro px
    match px with
    | [] => simp [colorToRGBA]
    | [a] => simp [colorToRGBA]
    | [a, b] => simp [colorToRGBA]
    | a :: b :: c :: t =>
      have h4 : 4 * (n + 1) = 4 * n + 1 + 1 + 1 + 1 := by ring
      have h3 : 3 * (n + 1) = 3 * n + 1 + 1 + 1 := by ring
      rw [show colorToRGBA (a :: b :: c :: t) = a :: b :: c :: 255 :: colorToRGBA t
          from rfl]
      rw [h4, h3]
      simp only [List.drop_succ_cons]
      exact ih t

/-- **C4 amended.** For color images the repository's thumbnail loop copies
the toolkit's decoded channel values unchanged (alpha set to 255); for
grayscale images, however, the repository's own code computes the
window-center/window-width transformation (here evaluated at its default
window, mapping decoded value 1000 to 255). -/
theorem repo_windowing_amended :
    (∀ (px : List ℚ) (k : Nat) (r g b : ℚ),
        px[3 * k]? = some r → px[3 * k + 1]? = some g → px[3 * k + 2]? = some b →
        (colorToRGBA px)[4 * k]? = some r ∧ (colorToRGBA px)[4 * k + 1]? = some g ∧
          (colorToRGBA px)[4 * k + 2]? = some b ∧
          (colorToRGBA px)[4 * k + 3]? = some 255) ∧
      grayIntensity 128 256 1 0 1000 = 255 := by
  constructor
  · intro px k r g b hr hg hb
    have hdr : (px.drop (3 * k))[0]? = some r := by
      rw [List.getElem?_drop]
      simpa using hr
    have hdg : (px.drop (3 * k))[1]? = some g := by
      rw [List.getElem?_drop]
      exact hg
    have hdb : (px.drop (3 * k))[2]? = some b := by
      rw [List.getElem?_drop]
      exact hb
    have hout : ∀ j : Nat, (colorToRGBA px)[4 * k + j]? = (colorToRGBA (px.drop (3 * k)))[j]? := by
      intro j
      rw [← colorToRGBA_drop k px, List.getElem?_drop]
    match hpx : px.drop (3 * k) with
    | [] => rw [hpx] at hdr; simp at hdr
    | [a] => rw [hpx] at hdg; simp at hdg
    | [a, b'] => rw [hpx] at hdb; simp at hdb
    | a :: b' :: c :: t =>
      rw [hpx] at hdr hdg hdb
      simp only [List.getElem?_cons_zero, List.getElem?_cons_succ,
        Option.some.injEq] at hdr hdg hdb
      subst hdr
      subst hdg
      subst hdb
      refine ⟨?_, ?_, ?_, ?_⟩
      · rw [show 4 * k = 4 * k + 0 from rfl, hout 0, hpx]
        simp [colorToRGBA]
      · rw [hout 1, hpx]
        simp [colorToRGBA]
      · rw [hout 2, hpx]
        simp [colorToRGBA]
      · rw [hout 3, hpx]
        simp [colorToRGBA]
  · simp only [grayIntensity]
    norm_num

/-- Witness for the amended **C4** on the concrete color triple
`(10, 20, 30)`. -/
theorem repo_windowing_amended_witness :
    (([10, 20, 30] : List ℚ)[3 * 0]? = some 10 ∧
        ([10, 20, 30] : List ℚ)[3 * 0 + 1]? = some 20 ∧
        ([10, 20, 30] : List ℚ)[3 * 0 + 2]? = some 30) ∧
      ((colorToRGBA [10, 20, 30])[4 * 0]? = some 10 ∧
        (colorToRGBA [10, 20, 30])[4 * 0 + 1]? = some 20 ∧
        (colorToRGBA [10, 20, 30])[4 * 0 + 2]? = some 30 ∧
        (colorToRGBA [10, 20, 30])[4 * 0 + 3]? = some 255) :=
  ⟨⟨rfl, rfl, rfl⟩,
    repo_windowing_amended.1 [10, 20, 30] 0 10 20 30 rfl rfl rfl⟩

/-! ## Claim C5: containment of errors -/

/-- **C5 counterexample.** Not every caught error reduces to console
logging or a greyed-out placeholder: when the directory scan itself throws,
the route's outer catch produces a visible 500 JSON error response (route
lines 299-302) — an externally visible result beyond the two the claim
allows. -/
theorem errors_visible_counterexample :
    ¬ ∃ series, apiGET (Except.error ()) (fun _ => none) = ApiResponse.ok series := by
  rintro ⟨s, h⟩
  simp [apiGET] at h

/-- **C5 amended.** Every error is caught by one of the route's two catch
levels and none ever leaves the route as an exception, but the visible
outcomes are three, not two: console logging, the greyed-out placeholder
(thumbnail load failure), or the 500 error response. A thrown directory
scan reduces to the 500 response; a per-file parse failure reduces to
console logging plus fallback grouping, and the unparsable file is still
served in some series *whenever the route succeeds at all*; when instead a
push inside the per-file catch itself throws (a fallback key naming an
`Object.prototype` member), that error escapes only as far as the outer
catch, which again yields the 500 response. -/
theorem errors_contained (parse : String → Option TagData)
    (dirFiles : List String) (file : String) (hmem : file ∈ dirFiles)
    (hfail : parse file = none) (hfil : dicomFilter file = true) :
    apiGET (Except.error ()) parse = ApiResponse.error500 ∧
      renderThumbnail (Except.error ()) = ThumbOutput.placeholder ∧
      (∀ series, listSeries parse dirFiles = Except.ok series →
          ∃ s ∈ series, ("/dicom/" ++ file) ∈ s.files) ∧
      (listSeries parse dirFiles = Except.error () →
          apiGET (Except.ok (some dirFiles)) parse = ApiResponse.error500) := by
  refine ⟨rfl, rfl, ?_, ?_⟩
  · intro series hok
    set filtered := jsSort strCmp (dirFiles.filter dicomFilter) with hfiltered
    obtain ⟨T, hpa, rfl⟩ := listSeries_ok_elim parse dirFiles series hok
    have hfold := processAll_ok parse filtered [] T (by simp [tableKeys]) hpa
    have hTfiles : List.Perm (tableFiles T)
        (filtered.map (fun f => "/dicom/" ++ f)) := by
      simpa [tableFiles] using hfold.2
    have hmem_f : file ∈ filtered :=
      (jsSort_perm _ _).mem_iff.mpr (List.mem_filter.mpr ⟨hmem, hfil⟩)
    have hpath : ("/dicom/" ++ file) ∈ tableFiles T :=
      hTfiles.mem_iff.mpr (List.mem_map_of_mem _ hmem_f)
    obtain ⟨e, heT, hx⟩ := (mem_tableFiles_iff _ _).mp hpath
    refine ⟨buildSeries e, ?_, ?_⟩
    · exact (jsSort_perm _ _).mem_iff.mpr (List.mem_map_of_mem buildSeries heT)
    · rw [buildSeries_files]
      exact (jsSort_perm _ _).mem_iff.mpr hx
  · intro herr
    simp [apiGET, herr]

/-- Witness for the amended **C5**: a directory holding one unparsable
`.dcm` file, on which the route succeeds and serves the file. -/
theorem errors_contained_witness :
    ("x.dcm" ∈ (["x.dcm"] : List String) ∧
        (fun _ : String => (none : Option TagData)) "x.dcm" = none ∧
        dicomFilter "x.dcm" = true) ∧
      (apiGET (Except.error ()) (fun _ => (none : Option TagData)) =
          ApiResponse.error500 ∧
        renderThumbnail (Except.error ()) = ThumbOutput.placeholder ∧
        (∀ series,
          listSeries (fun _ => (none : Option TagData)) ["x.dcm"] =
              Except.ok series →
            ∃ s ∈ series, ("/dicom/" ++ "x.dcm") ∈ s.files) ∧
        (listSeries (fun _ => (none : Option TagData)) ["x.dcm"] =
            Except.error () →
          apiGET (Except.ok (some ["x.dcm"])) (fun _ => (none : Option TagData)) =
            ApiResponse.error500)) :=
  ⟨⟨by decide, rfl, by decide⟩,
    errors_contained (fun _ => none) ["x.dcm"] "x.dcm" (by decide) rfl (by decide)⟩

end MedScan
